import Mathlib

/-!
Shallow embedding of the static-file HTTP responder in src/main/main.cpp.

Strings from the C code (NUL-terminated byte strings) are modelled as
List Char; file contents and wire bytes are also List Char. The filesystem
is an abstract map from full paths to optional file contents, and the
transport is an oracle list of Int replies, one per send call (a reply
s with s < 0 is a send failure, 0 <= s is the number of bytes the
transport accepted, never more than the number offered).
-/

/-- SPIFFS_BASE_PATH from main.cpp line 22. -/
def SPIFFS_BASE_PATH : List Char := "/spiffs".data

/-- FALLBACK_PATH from main.cpp line 23. -/
def FALLBACK_PATH : List Char := "/spiffs/index.html".data

/-- FILE_CHUNK from main.cpp line 32. -/
def FILE_CHUNK : Nat := 1024

/-- Locate the suffix after the last dot, as strrchr(path, the dot char)
followed by ext++ does in get_mime_type (main.cpp lines 36-38); none when
the path has no dot at all. -/
def afterLastDot : List Char → Option (List Char)
  | [] => none
  | c :: t =>
    match afterLastDot t with
    | some e => some e
    | none => if c = '.' then some t else none

/-- strcasecmp(a, b) == 0 for ASCII data: equality after byte-wise
Char.toLower (which, like the C locale tolower, only maps the ASCII
range 65-90). -/
def strcase_eq (a b : List Char) : Bool :=
  (a.map Char.toLower) == (b.map Char.toLower)

/-- The generic binary MIME type returned by get_mime_type on a missing
or unknown extension (main.cpp lines 37 and 51). -/
def mimeBin : List Char := "application/octet-stream".data

/-- get_mime_type from main.cpp lines 35-52: the extension is whatever
follows the last dot anywhere in the path, compared case-insensitively
against the fixed table. -/
def get_mime_type (path : List Char) : List Char :=
  match afterLastDot path with
  | none => mimeBin
  | some ext =>
    if strcase_eq ext ("html".data) then "text/html; charset=utf-8".data
    else if strcase_eq ext ("htm".data) then "text/html; charset=utf-8".data
    else if strcase_eq ext ("css".data) then "text/css".data
    else if strcase_eq ext ("js".data) then "application/javascript".data
    else if strcase_eq ext ("json".data) then "application/json".data
    else if strcase_eq ext ("png".data) then "image/png".data
    else if strcase_eq ext ("jpg".data) then "image/jpeg".data
    else if strcase_eq ext ("jpeg".data) then "image/jpeg".data
    else if strcase_eq ext ("gif".data) then "image/gif".data
    else if strcase_eq ext ("svg".data) then "image/svg+xml".data
    else if strcase_eq ext ("ico".data) then "image/x-icon".data
    else if strcase_eq ext ("txt".data) then "text/plain; charset=utf-8".data
    else mimeBin

/-- The closed vocabulary of MIME strings get_mime_type can return. -/
def mimeTable : List (List Char) :=
  [ "text/html; charset=utf-8".data
  , "text/css".data
  , "application/javascript".data
  , "application/json".data
  , "image/png".data
  , "image/jpeg".data
  , "image/gif".data
  , "image/svg+xml".data
  , "image/x-icon".data
  , "text/plain; charset=utf-8".data
  , "application/octet-stream".data ]

/-- The segment loop of sanitize_path (main.cpp lines 66-89), written with
an explicit iteration bound: each C loop iteration advances seg by at least
one character, so fuel equal to the length of the remaining input makes the
model agree with the C loop (the fuel-zero clause is unreachable then).
The accumulator tmp is the C char tmp[256] with ti = tmp.length; the
loop-entry guard is ti + 1 < 256 and the per-segment capacity break is
ti + len + 1 >= 256, exactly as in the source. -/
def sanitize_loop : Nat → List Char → List Char → List Char
  | _, [], tmp => tmp
  | 0, _ :: _, tmp => tmp
  | fuel + 1, s@(_ :: _), tmp =>
    if tmp.length + 1 < 256 then
      let seg := s.takeWhile (fun c => c ≠ '/')
      let rest := s.dropWhile (fun c => c ≠ '/')
      if seg.isEmpty then
        sanitize_loop fuel rest.tail tmp
      else if seg = ['.', '.'] then
        sanitize_loop fuel rest.tail tmp
      else if 256 ≤ tmp.length + seg.length + 1 then
        tmp
      else
        sanitize_loop fuel rest.tail (if tmp.isEmpty then seg else tmp ++ '/' :: seg)
    else tmp

/-- The single leading-slash strip of main.cpp line 64. -/
def strip_lead : List Char → List Char
  | '/' :: t => t
  | rp => rp

/-- The accumulator passed to the final snprintf of sanitize_path:
index.html for a null or "/" request (lines 57-60), otherwise the loop
result, defaulting to index.html when empty (line 92). -/
def sanitize_body (req_path : Option (List Char)) : List Char :=
  match req_path with
  | none => "index.html".data
  | some rp =>
    if rp = ['/'] then "index.html".data
    else
      let p := strip_lead rp
      let tmp := sanitize_loop p.length p []
      if tmp = [] then "index.html".data else tmp

/-- The full string snprintf(buf, buflen, the root slash body format)
would produce with an unbounded buffer. -/
def sanitize_full (req_path : Option (List Char)) : List Char :=
  SPIFFS_BASE_PATH ++ '/' :: sanitize_body req_path

/-- sanitize_path from main.cpp lines 55-93 as called from handle_client
with buflen = 256: snprintf truncates its output to buflen - 1 = 255
characters plus the terminator. -/
def sanitize_path (req_path : Option (List Char)) : List Char :=
  (sanitize_full req_path).take 255

/-- Split a byte string into its slash-separated segments (used only to
state properties about sanitized paths). -/
def splitSeg : List Char → List (List Char)
  | [] => [[]]
  | c :: t =>
    if c = '/' then [] :: splitSeg t
    else
      match splitSeg t with
      | [] => [[c]]
      | h :: r => (c :: h) :: r

/-- parse_request_path from main.cpp lines 96-106 as called from
handle_client with pathbuflen = 256: the token between the first and
second space of the buffer, "/" when either space is missing, truncated
to pathbuflen - 1 = 255 characters. -/
def parse_request_path (req : List Char) : List Char :=
  let t1 := req.dropWhile (fun c => c ≠ ' ')
  match t1 with
  | [] => ['/']
  | _ :: after1 =>
    let tok := after1.takeWhile (fun c => c ≠ ' ')
    let t2 := after1.dropWhile (fun c => c ≠ ' ')
    match t2 with
    | [] => ['/']
    | _ :: _ => tok.take 255

/-- The parser the spec sentence describes: the token between the first
and second space characters of the first line only. Used to compare the
spec wording with the code, which searches the whole buffer. -/
def parse_request_path_firstline (req : List Char) : List Char :=
  parse_request_path (req.takeWhile (fun c => c ≠ '\n'))

/-- Outcome of the streaming part of send_file: completed (the chunk loop
ran the file to the end), failed (a send call returned a negative value,
the file was closed and the transfer aborted), or stalled (the finite
transport oracle ran out before the loop could finish; the C loop would
still be blocking, so theorems never draw conclusions from this case). -/
inductive LoopRes
  | completed
  | failed
  | stalled
deriving DecidableEq

/-- The inner send loop of send_file (main.cpp lines 161-171): keep
calling send on the unsent remainder of the chunk until it is empty, or
a call fails. Each call consumes one oracle reply; the bytes the
transport accepts are the offered buffer clipped to the reply. -/
def send_loop : List Int → List Char → List Char × List Int × LoopRes
  | oracle, [] => ([], oracle, .completed)
  | [], _ :: _ => ([], [], .stalled)
  | s :: orc, b :: bs =>
    if s < 0 then ([], orc, .failed)
    else
      let k := min s.toNat (b :: bs).length
      let q := send_loop orc ((b :: bs).drop k)
      ((b :: bs).take k ++ q.1, q.2.1, q.2.2)

/-- The fread chunk loop of send_file (main.cpp lines 159-172): read up
to FILE_CHUNK bytes, push them through the send loop, repeat until the
file is exhausted or a send fails. The fuel bounds the number of chunks;
fuel equal to the number of unread bytes always suffices because each
chunk consumes at least one byte. -/
def stream_chunks : Nat → List Int → List Char → List Char × List Int × LoopRes
  | _, oracle, [] => ([], oracle, .completed)
  | 0, oracle, _ :: _ => ([], oracle, .stalled)
  | fuel + 1, oracle, d :: ds =>
    match send_loop oracle ((d :: ds).take FILE_CHUNK) with
    | (w, o, .completed) =>
      match stream_chunks fuel o ((d :: ds).drop FILE_CHUNK) with
      | (w2, o2, st2) => (w ++ w2, o2, st2)
    | (w, o, st) => (w, o, st)

/-- The 404 body literal of send_404 (main.cpp line 110). -/
def body404 : List Char := "<html><body><h1>404 Not Found</h1></body></html>".data

/-- The 404 header built by send_404 (main.cpp lines 113-118); its
Content-Length field is the decimal of the body length. -/
def mk_header404 : List Char :=
  ("HTTP/1.1 404 Not Found\r\nContent-Type: text/html; charset=utf-8\r\nContent-Length: "
    ++ toString body404.length ++ "\r\nConnection: close\r\n\r\n").data

/-- The 200 header built by send_file (main.cpp lines 146-151). For every
realizable mime string and file size this fits the 256-byte header buffer,
so the snprintf truncation there is a no-op and is not modelled. -/
def mk_header200 (mime : List Char) (filesize : Nat) : List Char :=
  "HTTP/1.1 200 OK\r\nContent-Type: ".data ++ mime
    ++ "\r\nContent-Length: ".data ++ (toString filesize).data
    ++ "\r\nConnection: close\r\n\r\n".data

/-- What one call of send_file hands to the transport: the header buffer,
the 404 body when send_404 ran, the file bytes the transport accepted,
whether a 404 was emitted, and the streaming outcome. -/
structure FResult where
  header : List Char
  notFoundBody : Option (List Char)
  bodyWire : List Char
  did404 : Bool
  status : LoopRes
deriving DecidableEq

/-- The result of send_404 (main.cpp lines 109-121). -/
def send_404_result : FResult :=
  { header := mk_header404
  , notFoundBody := some body404
  , bodyWire := []
  , did404 := true
  , status := .completed }

/-- The open-succeeded arm of send_file (main.cpp lines 138-173): emit the
200 header (one send call, result ignored, hence oracle.tail) and stream
the file body. -/
def send_file_found (oracle : List Int) (fullpath data : List Char) : FResult :=
  let res := stream_chunks data.length oracle.tail data
  { header := mk_header200 (get_mime_type fullpath) data.length
  , notFoundBody := none
  , bodyWire := res.1
  , did404 := false
  , status := res.2.2 }

/-- send_file from main.cpp lines 124-174 over an abstract filesystem
fs (fopen succeeds exactly when fs returns some contents). The C function
retries at most once, calling itself with FALLBACK_PATH and
isFallback = true when the first open fails; that single level of
recursion is unrolled here so the definition is structural. -/
def send_file (fs : List Char → Option (List Char)) (oracle : List Int)
    (fullpath : List Char) (isFallback : Bool) : FResult :=
  match fs fullpath with
  | some data => send_file_found oracle fullpath data
  | none =>
    match isFallback with
    | true => send_404_result
    | false =>
      match fs FALLBACK_PATH with
      | some data => send_file_found oracle FALLBACK_PATH data
      | none => send_404_result

/-- Observable effects of one handle_client call (main.cpp lines
177-205): the send_file outcome when one was made, and how many
shutdown and close calls ran on the client socket. -/
structure HCResult where
  response : Option FResult
  shutdowns : Nat
  closes : Nat
deriving DecidableEq

/-- handle_client from main.cpp lines 177-205: one recv (its return
value recvRet and the resulting C string recvData are inputs of the
model); on recvRet <= 0 close and return, otherwise parse, sanitize,
send_file, shutdown, close. -/
def handle_client (fs : List Char → Option (List Char)) (oracle : List Int)
    (recvRet : Int) (recvData : List Char) : HCResult :=
  if recvRet ≤ 0 then
    { response := none, shutdowns := 0, closes := 1 }
  else
    let req_path := parse_request_path recvData
    let safe_path := sanitize_path (some req_path)
    { response := some (send_file fs oracle safe_path false)
    , shutdowns := 1
    , closes := 1 }

/-- The response byte stream of one send_file outcome as the server
offers it: header then either the 404 body or the streamed file bytes. -/
def emitted (r : FResult) : List Char :=
  r.header ++ (match r.notFoundBody with | some b => b | none => r.bodyWire)

/-- The response byte stream of one handle_client call. -/
def hc_response (h : HCResult) : List Char :=
  match h.response with
  | none => []
  | some r => emitted r

/-- True when the call saw no transport failure and no stall: every
send_file outcome it produced has status completed. -/
def hc_ok (h : HCResult) : Bool :=
  match h.response with
  | none => true
  | some r => decide (r.status = .completed)

/-- splitSeg never returns the empty list of segments. -/
theorem splitSeg_ne_nil (l : List Char) : splitSeg l ≠ [] := by
  induction l with
  | nil => simp [splitSeg]
  | cons c t ih =>
    simp only [splitSeg]
    split
    · simp
    · split <;> simp

/-- A slash-free string is one single segment. -/
theorem splitSeg_no_slash {l : List Char} (h : '/' ∉ l) : splitSeg l = [l] := by
  induction l with
  | nil => rfl
  | cons c t ih =>
    simp only [List.mem_cons, not_or] at h
    have hc : ¬(c = '/') := fun hc => h.1 hc.symm
    simp only [splitSeg, if_neg hc, ih h.2]

/-- Appending a slash and a slash-free segment appends one segment. -/
theorem splitSeg_append_last {seg : List Char} (xs : List Char) (h : '/' ∉ seg) :
    splitSeg (xs ++ '/' :: seg) = splitSeg xs ++ [seg] := by
  induction xs with
  | nil => simp [splitSeg, splitSeg_no_slash h]
  | cons c t ih =>
    by_cases hc : c = '/'
    · subst hc
      simp [splitSeg, ih]
    · obtain ⟨hh, r, hr⟩ : ∃ hh r, splitSeg t = hh :: r := by
        cases hsp : splitSeg t with
        | nil => exact absurd hsp (splitSeg_ne_nil t)
        | cons a b => exact ⟨a, b, rfl⟩
      simp [splitSeg, if_neg hc, ih, hr]

/-- A slash-free head followed by a slash contributes exactly the first
segment. -/
theorem splitSeg_append_head {xs : List Char} (ys : List Char) (h : '/' ∉ xs) :
    splitSeg (xs ++ '/' :: ys) = xs :: splitSeg ys := by
  induction xs with
  | nil => simp [splitSeg]
  | cons c t ih =>
    simp only [List.mem_cons, not_or] at h
    have hc : ¬(c = '/') := fun hc => h.1 hc.symm
    simp [splitSeg, if_neg hc, ih h.2]

/-- The taken segment of the sanitize loop never contains a slash. -/
theorem takeWhile_no_slash (s : List Char) :
    '/' ∉ s.takeWhile (fun c => c ≠ '/') := by
  intro hm
  have := List.mem_takeWhile_imp hm
  simp at this

/-- Invariant of the sanitize loop: it never lets a ".." segment into the
accumulator. -/
theorem sanitize_loop_no_dotdot (fuel : Nat) :
    ∀ s tmp : List Char, "..".data ∉ splitSeg tmp →
      "..".data ∉ splitSeg (sanitize_loop fuel s tmp) := by
  induction fuel with
  | zero =>
    intro s tmp h
    cases s <;> simpa [sanitize_loop]
  | succ n ih =>
    intro s tmp h
    cases s with
    | nil => simpa [sanitize_loop]
    | cons c cs =>
      simp only [sanitize_loop]
      by_cases hcap : tmp.length + 1 < 256
      · rw [if_pos hcap]
        by_cases hemp : ((c :: cs).takeWhile (fun x => x ≠ '/')).isEmpty
        · rw [if_pos hemp]
          exact ih _ _ h
        · rw [if_neg hemp]
          by_cases hdd : (c :: cs).takeWhile (fun x => x ≠ '/') = ['.', '.']
          · rw [if_pos hdd]
            exact ih _ _ h
          · rw [if_neg hdd]
            by_cases hcap2 :
                256 ≤ tmp.length + ((c :: cs).takeWhile (fun x => x ≠ '/')).length + 1
            · rw [if_pos hcap2]
              exact h
            · rw [if_neg hcap2]
              refine ih _ _ ?_
              by_cases htmp : tmp.isEmpty
              · rw [if_pos htmp]
                rw [splitSeg_no_slash (takeWhile_no_slash (c :: cs))]
                simp only [List.mem_singleton]
                exact fun he => hdd he.symm
              · rw [if_neg htmp]
                rw [splitSeg_append_last _ (takeWhile_no_slash (c :: cs))]
                simp only [List.mem_append, List.mem_singleton]
                rintro (hin | hin)
                · exact h hin
                · exact hdd hin.symm
      · rw [if_neg hcap]
        exact h

/-- The accumulator handed to the final snprintf never holds a ".."
segment. -/
theorem sanitize_body_no_dotdot (rp : Option (List Char)) :
    "..".data ∉ splitSeg (sanitize_body rp) := by
  match rp with
  | none => decide
  | some rp =>
    rw [sanitize_body]
    by_cases h1 : rp = ['/']
    · rw [if_pos h1]
      decide
    · rw [if_neg h1]
      by_cases h2 : sanitize_loop (strip_lead rp).length (strip_lead rp) [] = []
      · rw [if_pos h2]
        decide
      · rw [if_neg h2]
        exact sanitize_loop_no_dotdot _ _ _ (by decide)

/-- The untruncated sanitized path never holds a ".." segment. -/
theorem sanitize_full_no_dotdot (rp : Option (List Char)) :
    "..".data ∉ splitSeg (sanitize_full rp) := by
  have hsplit : splitSeg (sanitize_full rp)
      = [] :: "spiffs".data :: splitSeg (sanitize_body rp) := by
    show splitSeg ('/' :: ("spiffs".data ++ '/' :: sanitize_body rp)) = _
    rw [show splitSeg ('/' :: ("spiffs".data ++ '/' :: sanitize_body rp))
          = [] :: splitSeg ("spiffs".data ++ '/' :: sanitize_body rp) from by
        simp [splitSeg]]
    rw [splitSeg_append_head _ (by decide)]
  rw [hsplit]
  simp only [List.mem_cons, not_or]
  exact ⟨by decide, by decide, sanitize_body_no_dotdot rp⟩

/-- A request path of 249 bytes whose sanitized form overflows the
256-byte output buffer of sanitize_path. -/
def c1_bad_input : List Char := '/' :: (List.replicate 244 'a' ++ '/' :: "..x".data)

set_option maxRecDepth 100000 in
/-- C1 counterexample: the claim says the output of sanitize_path never
contains a ".." segment, but for c1_bad_input the kept segment "..x"
makes the assembled path 256 bytes long, snprintf cuts it at 255, and
the result ends in a literal ".." segment. -/
theorem c1_counterexample :
    "..".data ∈ splitSeg (sanitize_path (some c1_bad_input)) := by decide

/-- C1 amended: every output of sanitize_path (buflen 256) begins with
the root prefix "/spiffs/"; the assembled path before snprintf
truncation never contains a ".." segment; and whenever the assembled
path fits the output buffer (length at most 255, so truncation is a
no-op) the output itself contains no ".." segment. -/
theorem c1_amended_safety (rp : Option (List Char)) :
    (∃ t, sanitize_path rp = "/spiffs/".data ++ t) ∧
    "..".data ∉ splitSeg (sanitize_full rp) ∧
    ((sanitize_full rp).length ≤ 255 → "..".data ∉ splitSeg (sanitize_path rp)) := by
  have hfull : sanitize_full rp = "/spiffs/".data ++ sanitize_body rp := by
    rw [sanitize_full, List.append_cons]
    congr 1
  refine ⟨?_, sanitize_full_no_dotdot rp, ?_⟩
  · refine ⟨(sanitize_body rp).take (255 - ("/spiffs/".data).length), ?_⟩
    rw [sanitize_path, hfull, List.take_append_eq_append_take,
      List.take_of_length_le (by decide)]
  · intro hlen
    rw [sanitize_path, List.take_of_length_le hlen]
    exact sanitize_full_no_dotdot rp

/-- Witness for c1_amended_safety at a concrete short input, with the
length hypothesis discharged. -/
theorem c1_amended_safety_witness :
    (∃ t, sanitize_path (some ("/a".data)) = "/spiffs/".data ++ t) ∧
    "..".data ∉ splitSeg (sanitize_full (some ("/a".data))) ∧
    "..".data ∉ splitSeg (sanitize_path (some ("/a".data))) :=
  ⟨(c1_amended_safety (some ("/a".data))).1,
   (c1_amended_safety (some ("/a".data))).2.1,
   (c1_amended_safety (some ("/a".data))).2.2 (by decide)⟩

/-- C2 counterexample: the claim says both traversal examples collapse to
the index default, but the code keeps every non-".." segment, so the
remainders are "x" and "etc/passwd", not empty. -/
theorem c2_counterexample :
    sanitize_path (some ("/../../../x".data)) = "/spiffs/x".data ∧
    sanitize_path (some ("/../../../x".data)) ≠ "/spiffs/index.html".data ∧
    sanitize_path (some ("/../../etc/passwd".data)) = "/spiffs/etc/passwd".data ∧
    sanitize_path (some ("/../../etc/passwd".data)) ≠ "/spiffs/index.html".data := by
  decide

/-- C2 amended: sanitize_path drops the ".." segments and keeps the
remaining ones, so "/../../../x" maps to "/spiffs/x" and
"/../../etc/passwd" maps to "/spiffs/etc/passwd"; the index default
fires only when nothing remains, as for "/../..". -/
theorem c2_amended_paths :
    sanitize_path (some ("/../../../x".data)) = "/spiffs/x".data ∧
    sanitize_path (some ("/../../etc/passwd".data)) = "/spiffs/etc/passwd".data ∧
    sanitize_path (some ("/../..".data)) = "/spiffs/index.html".data := by
  decide

/-- C7: a null request path and the exact path "/" both yield the index
default immediately, and any request path whose segment loop leaves an
empty accumulator also yields the index default. -/
theorem c7_defaults :
    sanitize_path none = "/spiffs/index.html".data ∧
    sanitize_path (some ("/".data)) = "/spiffs/index.html".data ∧
    ∀ rp : List Char, rp ≠ "/".data →
      sanitize_loop (strip_lead rp).length (strip_lead rp) [] = [] →
      sanitize_path (some rp) = "/spiffs/index.html".data := by
  refine ⟨by decide, by decide, ?_⟩
  intro rp h1 h2
  have h1b : ¬(rp = ['/']) := h1
  rw [sanitize_path, sanitize_full, sanitize_body]
  rw [if_neg h1b, if_pos h2]
  decide

/-- Witness for c7_defaults: the double-slash path has an empty
accumulator and defaults to the index document. -/
theorem c7_witness :
    sanitize_path (some ("//".data)) = "/spiffs/index.html".data :=
  c7_defaults.2.2 ("//".data) (by decide) (by decide)

/-- Running the sanitize loop on a single slash-free segment that is not
".." and fits the accumulator appends it literally. -/
theorem sanitize_loop_single (c : Char) (cs : List Char) (h1 : '/' ∉ c :: cs)
    (h2 : c :: cs ≠ ['.', '.']) (h3 : (c :: cs).length ≤ 254) :
    sanitize_loop (c :: cs).length (c :: cs) [] = c :: cs := by
  have hp : ∀ x ∈ c :: cs, (fun x => decide (x ≠ '/')) x = true := by
    intro x hx
    simp only [decide_eq_true_eq]
    exact fun he => h1 (he ▸ hx)
  have htw : (c :: cs).takeWhile (fun x => x ≠ '/') = c :: cs :=
    List.takeWhile_eq_self_iff.mpr hp
  have hdw : (c :: cs).dropWhile (fun x => x ≠ '/') = [] :=
    List.dropWhile_eq_nil_iff.mpr hp
  rw [List.length_cons, sanitize_loop, htw, hdw]
  rw [if_pos (by simp)]
  rw [if_neg (by simp), if_neg h2, if_neg (by simp at h3 ⊢; omega)]
  have : sanitize_loop cs.length ([] : List Char).tail (c :: cs) = c :: cs := by
    cases cs.length <;> rfl
  simpa using this

/-- C10: only segments that are exactly ".." are dropped; "." and other
dotted segments are appended literally, so "/./a" maps to "/spiffs/./a",
"/.../x" maps to "/spiffs/.../x", and in general any single slash-free
segment other than ".." that fits the buffers is kept verbatim. -/
theorem c10_dot_segments :
    sanitize_path (some ("/./a".data)) = "/spiffs/./a".data ∧
    sanitize_path (some ("/.../x".data)) = "/spiffs/.../x".data ∧
    ∀ seg : List Char, seg ≠ [] → '/' ∉ seg → seg ≠ "..".data → seg.length ≤ 247 →
      sanitize_path (some ('/' :: seg)) = "/spiffs/".data ++ seg := by
  refine ⟨by decide, by decide, ?_⟩
  intro seg h0 h1 h2 h3
  obtain ⟨c, cs, rfl⟩ : ∃ c cs, seg = c :: cs := by
    cases seg with
    | nil => exact absurd rfl h0
    | cons c cs => exact ⟨c, cs, rfl⟩
  have hne : ¬('/' :: c :: cs = ['/']) := by simp
  have hstrip : strip_lead ('/' :: c :: cs) = c :: cs := rfl
  have hloop := sanitize_loop_single c cs h1 h2 (by omega)
  simp only [List.length_cons] at h3
  simp only [sanitize_path, sanitize_full, sanitize_body, if_neg hne, hstrip, hloop]
  rw [if_neg (List.cons_ne_nil c cs)]
  rw [List.append_cons]
  have h8 : (SPIFFS_BASE_PATH ++ ['/']).length = 8 := by decide
  rw [List.take_of_length_le (by rw [List.length_append, h8, List.length_cons]; omega)]
  congr 1

/-- Witness for c10_dot_segments: the segment "..x" contains dots but is
not ".." and is kept literally. -/
theorem c10_witness :
    sanitize_path (some ('/' :: "..x".data)) = "/spiffs/".data ++ "..x".data :=
  c10_dot_segments.2.2 ("..x".data) (by decide) (by decide) (by decide) (by decide)

/-- Dropping up to a delimiter not occurring in the head skips exactly
the head. -/
theorem dropWhile_to_space {m : List Char} (rest : List Char) (h : ' ' ∉ m) :
    (m ++ ' ' :: rest).dropWhile (fun c => c ≠ ' ') = ' ' :: rest := by
  induction m with
  | nil => simp [List.dropWhile_cons]
  | cons c t ih =>
    simp only [List.mem_cons, not_or] at h
    have hc : c ≠ ' ' := fun hc => h.1 hc.symm
    simp only [List.cons_append, List.dropWhile_cons, decide_eq_true_eq]
    rw [if_pos hc]
    exact ih h.2

/-- Taking up to a delimiter not occurring in the head takes exactly the
head. -/
theorem takeWhile_to_space {m : List Char} (rest : List Char) (h : ' ' ∉ m) :
    (m ++ ' ' :: rest).takeWhile (fun c => c ≠ ' ') = m := by
  induction m with
  | nil => simp [List.takeWhile_cons]
  | cons c t ih =>
    simp only [List.mem_cons, not_or] at h
    have hc : c ≠ ' ' := fun hc => h.1 hc.symm
    simp only [List.cons_append, List.takeWhile_cons, decide_eq_true_eq]
    rw [if_pos hc, ih h.2]

/-- A space-free buffer is consumed whole by the delimiter scan. -/
theorem dropWhile_no_space {l : List Char} (h : ' ' ∉ l) :
    l.dropWhile (fun c => c ≠ ' ') = [] := by
  refine List.dropWhile_eq_nil_iff.mpr ?_
  intro x hx
  simp only [decide_eq_true_eq]
  exact fun he => h (he ▸ hx)

/-- C5 counterexample: the claim restricts the token search to the first
line, but strchr scans the whole buffer; on "A\nB C D" the first line has
no space (the claim demands "/") while the code returns "C". -/
theorem c5_counterexample :
    parse_request_path ("A\nB C D".data) = "C".data ∧
    parse_request_path_firstline ("A\nB C D".data) = "/".data ∧
    "C".data ≠ "/".data := by
  decide

/-- C5 amended: parse_request_path returns the token between the first
and second space characters of the whole buffer (newlines are not
treated specially), "/" when either space is missing, and the token is
silently truncated to the 255 characters that fit the destination
buffer. -/
theorem c5_amended_parse :
    (∀ req : List Char, ' ' ∉ req → parse_request_path req = "/".data) ∧
    (∀ m p : List Char, ' ' ∉ m → ' ' ∉ p →
      parse_request_path (m ++ ' ' :: p) = "/".data) ∧
    (∀ m p rest : List Char, ' ' ∉ m → ' ' ∉ p →
      parse_request_path (m ++ ' ' :: (p ++ ' ' :: rest)) = p.take 255) := by
  refine ⟨?_, ?_, ?_⟩
  · intro req h
    rw [parse_request_path, dropWhile_no_space h]
  · intro m p hm hp
    rw [parse_request_path, dropWhile_to_space p hm]
    simp only
    rw [dropWhile_no_space hp]
  · intro m p rest hm hp
    rw [parse_request_path, dropWhile_to_space (p ++ ' ' :: rest) hm]
    simp only
    rw [dropWhile_to_space rest hp, takeWhile_to_space rest hp]

/-- Witness for c5_amended_parse on a well-formed request line. -/
theorem c5_witness :
    parse_request_path ("GET".data ++ ' ' :: ("/x.css".data ++ ' ' :: "HTTP/1.1".data))
      = ("/x.css".data).take 255 :=
  c5_amended_parse.2.2 ("GET".data) ("/x.css".data) ("HTTP/1.1".data)
    (by decide) (by decide)

/-- A dot-free path has no extension. -/
theorem afterLastDot_eq_none {p : List Char} (h : '.' ∉ p) :
    afterLastDot p = none := by
  induction p with
  | nil => rfl
  | cons c t ih =>
    simp only [List.mem_cons, not_or] at h
    have hc : ¬(c = '.') := fun hc => h.1 hc.symm
    rw [afterLastDot, ih h.2, if_neg hc]

/-- Membership in a list is preserved by a branch whose arms are both
members. -/
theorem ite_mem {α : Type} {c : Prop} [Decidable c] {a b : α} {l : List α}
    (ha : a ∈ l) (hb : b ∈ l) : (if c then a else b) ∈ l := by
  split <;> assumption

/-- C6: get_mime_type keys on the substring after the last dot; with no
dot it returns the generic binary type; every return value comes from
the closed table; the lookup is case-insensitive ("style.CSS" resolves
to "text/css") and an unknown or missing extension ("noext") resolves
to the generic binary type. -/
theorem c6_mime :
    (∀ p : List Char, '.' ∉ p → get_mime_type p = mimeBin) ∧
    (∀ p : List Char, get_mime_type p ∈ mimeTable) ∧
    get_mime_type ("style.CSS".data) = "text/css".data ∧
    get_mime_type ("noext".data) = mimeBin := by
  refine ⟨?_, ?_, by decide, by decide⟩
  · intro p h
    rw [get_mime_type, afterLastDot_eq_none h]
  · intro p
    rw [get_mime_type]
    rcases afterLastDot p with _ | ext
    · decide
    · exact ite_mem (by decide) (ite_mem (by decide) (ite_mem (by decide)
        (ite_mem (by decide) (ite_mem (by decide) (ite_mem (by decide)
        (ite_mem (by decide) (ite_mem (by decide) (ite_mem (by decide)
        (ite_mem (by decide) (ite_mem (by decide)
        (ite_mem (by decide) (by decide))))))))))))

/-- Witness for c6_mime on a dot-free name. -/
theorem c6_witness :
    ('.' ∉ ("abc".data)) ∧ get_mime_type ("abc".data) = mimeBin :=
  ⟨by decide, c6_mime.1 ("abc".data) (by decide)⟩

/-- When the inner send loop completes, the transport accepted exactly
the offered buffer. -/
theorem send_loop_completed (oracle : List Int) :
    ∀ buf : List Char, (send_loop oracle buf).2.2 = .completed →
      (send_loop oracle buf).1 = buf := by
  induction oracle with
  | nil =>
    intro buf h
    cases buf with
    | nil => rfl
    | cons b bs => simp [send_loop] at h
  | cons s orc ih =>
    intro buf h
    cases buf with
    | nil => rfl
    | cons b bs =>
      rw [send_loop] at h ⊢
      by_cases hs : s < 0
      · rw [if_pos hs] at h
        simp at h
      · rw [if_neg hs] at h ⊢
        simp only at h ⊢
        rw [ih _ h]
        exact List.take_append_drop _ _

/-- The bytes the transport accepted are always an initial run of the
offered buffer. -/
theorem send_loop_accepted_init (oracle : List Int) :
    ∀ buf : List Char, ∃ t, buf = (send_loop oracle buf).1 ++ t := by
  induction oracle with
  | nil =>
    intro buf
    cases buf with
    | nil => exact ⟨[], rfl⟩
    | cons b bs => exact ⟨b :: bs, rfl⟩
  | cons s orc ih =>
    intro buf
    cases buf with
    | nil => exact ⟨[], rfl⟩
    | cons b bs =>
      rw [send_loop]
      by_cases hs : s < 0
      · rw [if_pos hs]
        exact ⟨b :: bs, rfl⟩
      · rw [if_neg hs]
        simp only
        obtain ⟨t, ht⟩ := ih ((b :: bs).drop (min s.toNat (b :: bs).length))
        refine ⟨t, ?_⟩
        conv_lhs => rw [← List.take_append_drop (min s.toNat (b :: bs).length) (b :: bs)]
        rw [List.append_assoc, ← ht]

/-- When the inner send loop fails, at least one offered byte was never
accepted by the transport. -/
theorem send_loop_failed (oracle : List Int) :
    ∀ buf : List Char, (send_loop oracle buf).2.2 = .failed →
      ∃ c t, buf = (send_loop oracle buf).1 ++ c :: t := by
  induction oracle with
  | nil =>
    intro buf h
    cases buf with
    | nil => simp [send_loop] at h
    | cons b bs => simp [send_loop] at h
  | cons s orc ih =>
    intro buf h
    cases buf with
    | nil => simp [send_loop] at h
    | cons b bs =>
      rw [send_loop] at h ⊢
      by_cases hs : s < 0
      · rw [if_pos hs]
        exact ⟨b, bs, rfl⟩
      · rw [if_neg hs] at h ⊢
        simp only at h ⊢
        obtain ⟨c, t, hct⟩ := ih _ h
        refine ⟨c, t, ?_⟩
        conv_lhs => rw [← List.take_append_drop (min s.toNat (b :: bs).length) (b :: bs)]
        rw [List.append_assoc, ← hct]

/-- When the chunk loop completes, the transport accepted exactly the
whole file. -/
theorem stream_chunks_completed (fuel : Nat) :
    ∀ (oracle : List Int) (data : List Char),
      (stream_chunks fuel oracle data).2.2 = .completed →
      (stream_chunks fuel oracle data).1 = data := by
  induction fuel with
  | zero =>
    intro oracle data h
    cases data with
    | nil => rfl
    | cons d ds => simp [stream_chunks] at h
  | succ n ih =>
    intro oracle data h
    cases data with
    | nil => rfl
    | cons d ds =>
      rw [stream_chunks] at h ⊢
      rcases hst : send_loop oracle ((d :: ds).take FILE_CHUNK) with ⟨w, o, st⟩
      rw [hst] at h
      cases st with
      | completed =>
        rcases hq : stream_chunks n o ((d :: ds).drop FILE_CHUNK) with ⟨w2, o2, st2⟩
        simp only [hq] at h ⊢
        have hw : w = (d :: ds).take FILE_CHUNK := by
          have hsl := send_loop_completed oracle ((d :: ds).take FILE_CHUNK)
          rw [hst] at hsl
          exact hsl rfl
        have hw2 : w2 = (d :: ds).drop FILE_CHUNK := by
          have hq2 := ih o ((d :: ds).drop FILE_CHUNK)
          rw [hq] at hq2
          exact hq2 h
        rw [hw, hw2, List.take_append_drop]
      | failed => simp at h
      | stalled => simp at h

/-- The streamed bytes are always an initial run of the file. -/
theorem stream_chunks_accepted_init (fuel : Nat) :
    ∀ (oracle : List Int) (data : List Char),
      ∃ t, data = (stream_chunks fuel oracle data).1 ++ t := by
  induction fuel with
  | zero =>
    intro oracle data
    cases data with
    | nil => exact ⟨[], rfl⟩
    | cons d ds => exact ⟨d :: ds, rfl⟩
  | succ n ih =>
    intro oracle data
    cases data with
    | nil => exact ⟨[], rfl⟩
    | cons d ds =>
      rw [stream_chunks]
      rcases hst : send_loop oracle ((d :: ds).take FILE_CHUNK) with ⟨w, o, st⟩
      cases st with
      | completed =>
        rcases hq : stream_chunks n o ((d :: ds).drop FILE_CHUNK) with ⟨w2, o2, st2⟩
        simp only [hq]
        have hw : w = (d :: ds).take FILE_CHUNK := by
          have hsl := send_loop_completed oracle ((d :: ds).take FILE_CHUNK)
          rw [hst] at hsl
          exact hsl rfl
        obtain ⟨t, ht⟩ := ih o ((d :: ds).drop FILE_CHUNK)
        rw [hq] at ht
        replace ht : (d :: ds).drop FILE_CHUNK = w2 ++ t := ht
        refine ⟨t, ?_⟩
        conv_lhs => rw [← List.take_append_drop FILE_CHUNK (d :: ds)]
        rw [← hw, ht, List.append_assoc]
      | failed =>
        simp only
        obtain ⟨t, ht⟩ := send_loop_accepted_init oracle ((d :: ds).take FILE_CHUNK)
        rw [hst] at ht
        replace ht : (d :: ds).take FILE_CHUNK = w ++ t := ht
        refine ⟨t ++ (d :: ds).drop FILE_CHUNK, ?_⟩
        conv_lhs => rw [← List.take_append_drop FILE_CHUNK (d :: ds)]
        rw [ht, List.append_assoc]
      | stalled =>
        simp only
        obtain ⟨t, ht⟩ := send_loop_accepted_init oracle ((d :: ds).take FILE_CHUNK)
        rw [hst] at ht
        replace ht : (d :: ds).take FILE_CHUNK = w ++ t := ht
        refine ⟨t ++ (d :: ds).drop FILE_CHUNK, ?_⟩
        conv_lhs => rw [← List.take_append_drop FILE_CHUNK (d :: ds)]
        rw [ht, List.append_assoc]

/-- When the chunk loop reports a transport failure, at least one file
byte was never accepted: the transfer really was cut short. -/
theorem stream_chunks_failed (fuel : Nat) :
    ∀ (oracle : List Int) (data : List Char),
      (stream_chunks fuel oracle data).2.2 = .failed →
      ∃ c t, data = (stream_chunks fuel oracle data).1 ++ c :: t := by
  induction fuel with
  | zero =>
    intro oracle data h
    cases data with
    | nil => simp [stream_chunks] at h
    | cons d ds => simp [stream_chunks] at h
  | succ n ih =>
    intro oracle data h
    cases data with
    | nil => simp [stream_chunks] at h
    | cons d ds =>
      rw [stream_chunks] at h ⊢
      rcases hst : send_loop oracle ((d :: ds).take FILE_CHUNK) with ⟨w, o, st⟩
      rw [hst] at h
      cases st with
      | completed =>
        rcases hq : stream_chunks n o ((d :: ds).drop FILE_CHUNK) with ⟨w2, o2, st2⟩
        simp only [hq] at h ⊢
        have hw : w = (d :: ds).take FILE_CHUNK := by
          have hsl := send_loop_completed oracle ((d :: ds).take FILE_CHUNK)
          rw [hst] at hsl
          exact hsl rfl
        have hq2 := ih o ((d :: ds).drop FILE_CHUNK)
        rw [hq] at hq2
        obtain ⟨c, t, hct⟩ := hq2 h
        replace hct : (d :: ds).drop FILE_CHUNK = w2 ++ c :: t := hct
        refine ⟨c, t, ?_⟩
        conv_lhs => rw [← List.take_append_drop FILE_CHUNK (d :: ds)]
        rw [← hw, hct, List.append_assoc]
      | failed =>
        simp only at h ⊢
        have hsl := send_loop_failed oracle ((d :: ds).take FILE_CHUNK)
        rw [hst] at hsl
        obtain ⟨c, t, hct⟩ := hsl rfl
        replace hct : (d :: ds).take FILE_CHUNK = w ++ c :: t := hct
        refine ⟨c, t ++ (d :: ds).drop FILE_CHUNK, ?_⟩
        conv_lhs => rw [← List.take_append_drop FILE_CHUNK (d :: ds)]
        rw [hct, List.append_assoc, List.cons_append]
      | stalled => simp at h

/-- Field view of send_file_found: the streamed body bytes. -/
theorem send_file_found_bodyWire (oracle : List Int) (fullpath data : List Char) :
    (send_file_found oracle fullpath data).bodyWire
      = (stream_chunks data.length oracle.tail data).1 := rfl

/-- Field view of send_file_found: the streaming status. -/
theorem send_file_found_status (oracle : List Int) (fullpath data : List Char) :
    (send_file_found oracle fullpath data).status
      = (stream_chunks data.length oracle.tail data).2.2 := rfl

/-- Field view of send_file_found: the 200 header. -/
theorem send_file_found_header (oracle : List Int) (fullpath data : List Char) :
    (send_file_found oracle fullpath data).header
      = mk_header200 (get_mime_type fullpath) data.length := rfl

/-- C3: a failed open that is not already the fallback attempt retries
exactly once with the fixed fallback path and the fallback flag set; when
the fallback open fails too, the result is the fixed 404 response whose
body is exactly the literal 404 page and whose declared Content-Length 48
is that body's byte length; and a 404 is emitted in no other case. -/
theorem c3_fallback_and_404 (fs : List Char → Option (List Char))
    (oracle : List Int) (path : List Char) :
    (fs path = none →
      send_file fs oracle path false = send_file fs oracle FALLBACK_PATH true) ∧
    (fs path = none → fs FALLBACK_PATH = none →
      send_file fs oracle path false = send_404_result) ∧
    ((send_file fs oracle path false).did404 = true →
      fs path = none ∧ fs FALLBACK_PATH = none) ∧
    send_404_result.notFoundBody = some body404 ∧
    send_404_result.header = mk_header404 ∧
    body404 = "<html><body><h1>404 Not Found</h1></body></html>".data ∧
    mk_header404 = ("HTTP/1.1 404 Not Found\r\nContent-Type: text/html; charset=utf-8\r\nContent-Length: 48\r\nConnection: close\r\n\r\n").data ∧
    body404.length = 48 := by
  refine ⟨?_, ?_, ?_, rfl, rfl, rfl, by decide, by decide⟩
  · intro h
    cases hf : fs FALLBACK_PATH <;> simp [send_file, h, hf]
  · intro h1 h2
    simp [send_file, h1, h2]
  · intro h404
    cases hp : fs path with
    | some data => simp [send_file, hp, send_file_found] at h404
    | none =>
      cases hf : fs FALLBACK_PATH with
      | some data => simp [send_file, hp, hf, send_file_found] at h404
      | none => exact ⟨rfl, rfl⟩

/-- The empty filesystem, under which every open fails. -/
def fsNone : List Char → Option (List Char) := fun _ => none

/-- Witness for c3_fallback_and_404: with no files at all, any request
produces the 404 result. -/
theorem c3_witness :
    send_file fsNone [] ("/spiffs/x.html".data) false = send_404_result :=
  (c3_fallback_and_404 fsNone [] ("/spiffs/x.html".data)).2.1 rfl rfl

/-- C4: when the requested file opens, the emitted header declares the
exact byte length of the contents; if the chunked streaming completes,
the bytes the transport accepted are exactly the file contents (so their
total length matches the declared Content-Length), even across partial
sends within a chunk; and on a transport write failure the transfer is
aborted with at least one byte never sent and no retry. -/
theorem c4_stream_exact (fs : List Char → Option (List Char)) (oracle : List Int)
    (path data : List Char) (hopen : fs path = some data) :
    (send_file fs oracle path false).header
        = mk_header200 (get_mime_type path) data.length ∧
    ((send_file fs oracle path false).status = .completed →
      (send_file fs oracle path false).bodyWire = data ∧
      (send_file fs oracle path false).bodyWire.length = data.length) ∧
    ((send_file fs oracle path false).status = .failed →
      ∃ c t, data = (send_file fs oracle path false).bodyWire ++ c :: t) := by
  have hsf : send_file fs oracle path false = send_file_found oracle path data := by
    simp [send_file, hopen]
  rw [hsf, send_file_found_status, send_file_found_bodyWire, send_file_found_header]
  refine ⟨rfl, ?_, ?_⟩
  · intro hst
    have hw := stream_chunks_completed data.length oracle.tail data hst
    exact ⟨hw, by rw [hw]⟩
  · intro hst
    exact stream_chunks_failed data.length oracle.tail data hst

/-- A one-file filesystem holding a two-byte text file. -/
def fs0 : List Char → Option (List Char) :=
  fun p => if p = "/spiffs/hello.txt".data then some ("hi".data) else none

/-- Witness for c4_stream_exact: serving the two-byte file over a fully
accepting transport reassembles exactly its contents. -/
theorem c4_witness :
    (send_file fs0 [5, 5] ("/spiffs/hello.txt".data) false).bodyWire = "hi".data ∧
    (send_file fs0 [5, 5] ("/spiffs/hello.txt".data) false).bodyWire.length
      = ("hi".data).length :=
  (c4_stream_exact fs0 [5, 5] ("/spiffs/hello.txt".data) ("hi".data)
    (by decide)).2.1 (by decide)

/-- C8: handle_client closes the connection exactly once on every exit
path; when the receive returns zero or fewer bytes it closes without
sending anything; otherwise it sends exactly the send_file response for
the parsed and sanitized path and also shuts the socket down. -/
theorem c8_connection (fs : List Char → Option (List Char)) (oracle : List Int)
    (recvRet : Int) (recvData : List Char) :
    (handle_client fs oracle recvRet recvData).closes = 1 ∧
    (recvRet ≤ 0 → handle_client fs oracle recvRet recvData
        = { response := none, shutdowns := 0, closes := 1 }) ∧
    (0 < recvRet → handle_client fs oracle recvRet recvData
        = { response := some (send_file fs oracle
              (sanitize_path (some (parse_request_path recvData))) false)
          , shutdowns := 1, closes := 1 }) := by
  refine ⟨?_, ?_, ?_⟩
  · rw [handle_client]
    split <;> rfl
  · intro h
    rw [handle_client, if_pos h]
  · intro h
    rw [handle_client, if_neg (by omega)]

/-- Witness for c8_connection: an empty receive closes without a
response. -/
theorem c8_witness :
    handle_client fsNone [] 0 [] = { response := none, shutdowns := 0, closes := 1 } :=
  (c8_connection fsNone [] 0 []).2.1 (by decide)

/-- C9: with the same received bytes and the same filesystem, two runs of
handle_client whose transports both let the response complete produce
byte-identical response streams, whatever the per-call transport replies
were. -/
theorem c9_deterministic (fs : List Char → Option (List Char))
    (o1 o2 : List Int) (recvRet : Int) (recvData : List Char)
    (h1 : hc_ok (handle_client fs o1 recvRet recvData) = true)
    (h2 : hc_ok (handle_client fs o2 recvRet recvData) = true) :
    hc_response (handle_client fs o1 recvRet recvData)
      = hc_response (handle_client fs o2 recvRet recvData) := by
  by_cases hr : recvRet ≤ 0
  · rw [handle_client, if_pos hr, handle_client, if_pos hr]
  · rw [handle_client, if_neg hr] at h1 h2 ⊢
    rw [handle_client, if_neg hr]
    show emitted (send_file fs o1 (sanitize_path (some (parse_request_path recvData))) false)
      = emitted (send_file fs o2 (sanitize_path (some (parse_request_path recvData))) false)
    replace h1 : (send_file fs o1 (sanitize_path (some (parse_request_path recvData))) false).status
        = LoopRes.completed := of_decide_eq_true h1
    replace h2 : (send_file fs o2 (sanitize_path (some (parse_request_path recvData))) false).status
        = LoopRes.completed := of_decide_eq_true h2
    cases hfs : fs (sanitize_path (some (parse_request_path recvData))) with
    | some data =>
      rw [send_file, hfs] at h1 h2 ⊢
      rw [show send_file fs o2 (sanitize_path (some (parse_request_path recvData))) false
            = send_file_found o2 (sanitize_path (some (parse_request_path recvData))) data
          from by rw [send_file, hfs]]
      rw [send_file_found_status] at h1 h2
      show mk_header200 _ data.length ++ (stream_chunks data.length o1.tail data).1
        = mk_header200 _ data.length ++ (stream_chunks data.length o2.tail data).1
      rw [stream_chunks_completed data.length o1.tail data h1,
        stream_chunks_completed data.length o2.tail data h2]
    | none =>
      cases hfb : fs FALLBACK_PATH with
      | some data =>
        rw [send_file, hfs, hfb] at h1 h2 ⊢
        rw [show send_file fs o2 (sanitize_path (some (parse_request_path recvData))) false
              = send_file_found o2 FALLBACK_PATH data
            from by rw [send_file, hfs, hfb]]
        rw [send_file_found_status] at h1 h2
        show mk_header200 _ data.length ++ (stream_chunks data.length o1.tail data).1
          = mk_header200 _ data.length ++ (stream_chunks data.length o2.tail data).1
        rw [stream_chunks_completed data.length o1.tail data h1,
          stream_chunks_completed data.length o2.tail data h2]
      | none =>
        rw [send_file, hfs, hfb]
        rw [show send_file fs o2 (sanitize_path (some (parse_request_path recvData))) false
              = send_404_result
            from by rw [send_file, hfs, hfb]]

/-- Witness for c9_deterministic: two different fully accepting
transports serve the same two-byte file identically. -/
theorem c9_witness :
    hc_response (handle_client fs0 [5, 5] 1 ("GET /hello.txt HTTP/1.1".data))
      = hc_response (handle_client fs0 [3, 1, 1] 1 ("GET /hello.txt HTTP/1.1".data)) :=
  c9_deterministic fs0 [5, 5] [3, 1, 1] 1 ("GET /hello.txt HTTP/1.1".data)
    (by decide) (by decide)
